import Mathlib

/-!
Verification of the FB2 → EPUB converter (`src/converter.py`).

The converter works on a BeautifulSoup document tree, so the embedding
models the parsed XML document as an inductive tree `Node` (element nodes
with a tag, attributes and children, and text nodes), together with the
BeautifulSoup operations the source uses: `get_text` (flatten all text),
`get_text(strip=True)`, recursive descendant search (`find`, `find_all`),
attribute lookup with a default (`Tag.get`), and ancestor lookup
(`find_parent('title')`, tracked as a flag during traversal).  A bs4 Tag is
always truthy (`Tag.__bool__` returns `True`), so every `x if x else d` and
`if tag:` on a `find` result in the source is a plain is-not-None test,
embedded as a match on `Option Node`.

The ebooklib side is modelled by `EpubHtml` / `EpubBook` records holding
exactly the fields the converter manipulates (items, spine, toc, cover,
metadata).  `base64.b64decode` is modelled by an executable `b64decode`
(characters outside the alphabet are discarded, `=` ends the data, and a
length that cannot be valid base64 fails, mirroring Python's
`binascii.Error`, modelled as `none`).  File-system effects in
`convert_file` / `convert_archive` are modelled by explicit environment
records saying which steps succeed, with `PyResult` distinguishing a
normal return from an uncaught Python exception.
-/

/-- Model of a BeautifulSoup node: an element with tag name, attributes and
children, or a text node. -/
inductive Node where
  | text (s : String) : Node
  | elem (tag : String) (attrs : List (String × String)) (children : List Node) : Node

mutual

/-- Decidable equality for `Node` (written by hand: the derive handler does not
support nested inductives). -/
def nodeDecEq : (a b : Node) → Decidable (a = b)
  | Node.text s, Node.text t =>
      if h : s = t then isTrue (by rw [h]) else isFalse (by intro k; cases k; exact h rfl)
  | Node.text _, Node.elem _ _ _ => isFalse (by intro k; cases k)
  | Node.elem _ _ _, Node.text _ => isFalse (by intro k; cases k)
  | Node.elem t1 a1 c1, Node.elem t2 a2 c2 =>
      if h1 : t1 = t2 then
        if h2 : a1 = a2 then
          match nodeDecEqL c1 c2 with
          | isTrue h3 => isTrue (by rw [h1, h2, h3])
          | isFalse h3 => isFalse (by intro k; cases k; exact h3 rfl)
        else isFalse (by intro k; cases k; exact h2 rfl)
      else isFalse (by intro k; cases k; exact h1 rfl)

def nodeDecEqL : (as bs : List Node) → Decidable (as = bs)
  | [], [] => isTrue rfl
  | [], _ :: _ => isFalse (by intro k; cases k)
  | _ :: _, [] => isFalse (by intro k; cases k)
  | a :: as, b :: bs =>
      match nodeDecEq a b with
      | isTrue h =>
          match nodeDecEqL as bs with
          | isTrue h2 => isTrue (by rw [h, h2])
          | isFalse h2 => isFalse (by intro k; cases k; exact h2 rfl)
      | isFalse h => isFalse (by intro k; cases k; exact h rfl)

end

instance : DecidableEq Node := nodeDecEq

/-- Tag name of a node (text nodes have no tag; the sentinel is never matched
because descendant search only yields element nodes). -/
def tagOf : Node → String
  | Node.text _ => ""
  | Node.elem t _ _ => t

/-- Attribute list of a node. -/
def attrsOf : Node → List (String × String)
  | Node.text _ => []
  | Node.elem _ a _ => a

mutual

/-- Model of `Tag.get_text()` / `.text`: concatenation of all text descendants
in document order. -/
def getText : Node → String
  | Node.text s => s
  | Node.elem _ _ cs => getTextL cs

def getTextL : List Node → String
  | [] => ""
  | c :: cs => getText c ++ getTextL cs

end

/-- Model of Python `str.strip()`: drop leading and trailing whitespace
(written over the character list so that it reduces definitionally). -/
def pyStrip (s : String) : String :=
  String.mk
    (((s.toList.dropWhile Char.isWhitespace).reverse.dropWhile Char.isWhitespace).reverse)

/-- Model of Python `str.endswith(suffix)`. -/
def pyEndsWith (s suffix : String) : Bool :=
  List.isPrefixOf suffix.toList.reverse s.toList.reverse

/-- Model of `' '.join(parts)`. -/
def pyJoinSpace : List String → String
  | [] => ""
  | [x] => x
  | x :: xs => x ++ " " ++ pyJoinSpace xs

mutual

/-- Model of `Tag.get_text(strip=True)`: each text fragment is stripped of
surrounding whitespace before concatenation. -/
def getTextS : Node → String
  | Node.text s => pyStrip s
  | Node.elem _ _ cs => getTextSL cs

def getTextSL : List Node → String
  | [] => ""
  | c :: cs => getTextS c ++ getTextSL cs

end

mutual

/-- Element descendants of a node in document (pre-)order, excluding the node
itself: the search space of BeautifulSoup's `find` / `find_all`. -/
def descE : Node → List Node
  | Node.text _ => []
  | Node.elem _ _ cs => descEL cs

def descEL : List Node → List Node
  | [] => []
  | c :: cs =>
      (match c with
       | Node.elem _ _ _ => [c]
       | Node.text _ => []) ++ descE c ++ descEL cs

end

mutual

/-- Element descendants paired with the result of `find_parent('title')`:
the flag of a descendant is true iff some ancestor (strictly below the node
the search started from) is a `title` element.  The argument is the flag the
direct children receive. -/
def descA : Bool → Node → List (Node × Bool)
  | _, Node.text _ => []
  | a, Node.elem _ _ cs => descAL a cs

def descAL : Bool → List Node → List (Node × Bool)
  | _, [] => []
  | a, c :: cs =>
      (match c with
       | Node.elem _ _ _ => [(c, a)]
       | Node.text _ => []) ++
      descA (a || (tagOf c == "title")) c ++ descAL a cs

end

/-- Model of `node.find(tag)`: first element descendant with the given tag. -/
def findTag (t : String) (n : Node) : Option Node :=
  (descE n).find? (fun d => tagOf d == t)

/-- Model of `node.find_all(tag)`: all element descendants with the given tag,
in document order. -/
def findAllTag (t : String) (n : Node) : List Node :=
  (descE n).filter (fun d => tagOf d == t)

/-- Attribute lookup in an attribute list (first match). -/
def attrLookup (attrs : List (String × String)) (key : String) : Option String :=
  (attrs.find? (fun kv => kv.1 == key)).map Prod.snd

/-- Model of `Tag.get(key, default)`: the attribute's value, else the default
VALUE (not a fallback attribute name). -/
def attrGetD (n : Node) (key dflt : String) : String :=
  (attrLookup (attrsOf n) key).getD dflt

/-- Model of `soup.find('binary', {'content-type': ['image/jpeg', 'image/jpg']})`:
first descendant `binary` element whose `content-type` attribute is one of the
two JPEG values. -/
def findBinaryJpeg (n : Node) : Option Node :=
  (descE n).find? (fun d =>
    tagOf d == "binary" &&
      (attrLookup (attrsOf d) "content-type" == some "image/jpeg" ||
       attrLookup (attrsOf d) "content-type" == some "image/jpg"))

/-- Value of a base64 alphabet character, `none` for anything else. -/
def b64Ix (c : Char) : Option Nat :=
  if 'A' ≤ c ∧ c ≤ 'Z' then some (c.toNat - 65)
  else if 'a' ≤ c ∧ c ≤ 'z' then some (c.toNat - 97 + 26)
  else if '0' ≤ c ∧ c ≤ '9' then some (c.toNat - 48 + 52)
  else if c = '+' then some 62
  else if c = '/' then some 63
  else none

/-- Decode a run of 6-bit values into bytes; a trailing group of one value is
invalid, trailing groups of two or three yield one or two bytes. -/
def b64Groups : List Nat → Option (List Nat)
  | [] => some []
  | [_] => none
  | [a, b] => some [a * 4 + b / 16]
  | [a, b, c] => some [a * 4 + b / 16, (b % 16) * 16 + c / 4]
  | a :: b :: c :: d :: rest => do
      let t ← b64Groups rest
      pure ((a * 4 + b / 16) :: ((b % 16) * 16 + c / 4) :: ((c % 4) * 64 + d) :: t)

/-- Model of Python `base64.b64decode` (non-validating mode): characters
outside the base64 alphabet are discarded, `=` terminates the data, and the
call raises `binascii.Error` (modelled as `none`) when the remaining length
cannot belong to a base64 encoding (remainder 1 modulo 4, or a partial final
group with no padding character at all). -/
def b64decode (s : String) : Option (List Nat) :=
  let cleaned := s.toList.filter (fun c => (b64Ix c).isSome || c = '=')
  let main := cleaned.takeWhile (fun c => c ≠ '=')
  let pads := cleaned.length - main.length
  let vals := main.filterMap b64Ix
  if vals.length % 4 = 1 then none
  else if vals.length % 4 ≠ 0 ∧ pads = 0 then none
  else b64Groups vals

/-- Model of an `ebooklib` `EpubHtml` item: the fields the converter sets. -/
structure EpubHtml where
  title : String
  file_name : String
  content : String
deriving DecidableEq

/-- One spine entry: the `'nav'` marker string or a chapter item. -/
inductive SpineItem where
  | nav : SpineItem
  | item : EpubHtml → SpineItem
deriving DecidableEq

/-- Model of an `ebooklib` `epub.Link` TOC entry. -/
structure EpubLink where
  href : String
  title : String
  uid : String
deriving DecidableEq

/-- Model of an `ebooklib` `EpubBook` as manipulated by the converter.  The
cover stores the decoded image bytes of `set_cover("cover.jpg", data)`; the
NCX and Nav supporting items are constants and are not modelled. -/
structure EpubBook where
  identifier : String
  title : String
  language : String
  authors : List String
  cover : Option (List Nat)
  items : List EpubHtml
  spine : List SpineItem
  toc : List EpubLink
deriving DecidableEq

/-- Embedding of `process_paragraph`: flattened text, wrapped in `<i>` when an
`emphasis` descendant exists, emptied when (otherwise) a link descendant
exists. -/
def process_paragraph (paragraph : Node) : String :=
  let p_text := getText paragraph
  if (findTag "emphasis" paragraph).isSome then "<i>" ++ p_text ++ "</i>"
  else if (findTag "a" paragraph).isSome then ""
  else p_text

/-- Rendering of one element found by `find_all(['p', 'a', 'subtitle'])` in
`process_section_elements`; the flag is the result of `find_parent('title')`.
A `p` inside a title matches no branch and contributes nothing. -/
def render_element : Node × Bool → String
  | (n, inTitle) =>
    if tagOf n == "p" then
      if inTitle then ""
      else
        let p_text := process_paragraph n
        "<p style=\"text-indent: 1em;\">" ++ p_text ++ "</p>"
    else if tagOf n == "a" then
      let a_href := attrGetD n "l:href" "href"
      let a_text := getText n
      "<a href=\"" ++ a_href ++ "\">" ++ a_text ++ "</a>"
    else if tagOf n == "subtitle" then
      let s_text := getText n
      "<p style=\"text-indent: 1em;\"><subtitle>" ++ s_text ++ "</subtitle></p>"
    else ""

/-- Embedding of `process_section_elements`: walk all `p`/`a`/`subtitle`
descendants in document order and concatenate their renderings. -/
def process_section_elements (sec : Node) : String :=
  (((descA false sec).filter
      (fun e => tagOf e.1 == "p" || tagOf e.1 == "a" || tagOf e.1 == "subtitle")).map
    render_element).foldl (fun acc s => acc ++ s) ""

/-- Embedding of `extract_metadata`: returns `(title, authors, annotation)`.
A bs4 Tag is always truthy (`Tag.__bool__` returns `True`), so
`title_tag.text if title_tag else title`, the author name-part condition
`if author.find(tag)` and `annotation_tag if annotation_tag else annotation`
are plain is-not-None tests on the `find` result. -/
def extract_metadata (soup : Node) : String × List String × Option Node :=
  match findTag "title-info" soup with
  | none => ("Unknown Title", [], none)
  | some ti =>
      let title :=
        match findTag "book-title" ti with
        | some t => getText t
        | none => "Unknown Title"
      let authors :=
        (findAllTag "author" ti).map (fun a =>
          pyJoinSpace
            ((["first-name", "middle-name", "last-name"]).filterMap (fun tg =>
              (findTag tg a).map getText)))
      let annotation_tag := findTag "annotation" ti
      (title, authors, annotation_tag)

/-- Embedding of `extract_cover_image`: first JPEG `binary` node's stripped
text is base64-decoded; a decode failure is caught (`except Exception`) and
leaves the book unchanged. -/
def extract_cover_image (soup : Node) (epub_book : EpubBook) : EpubBook :=
  match findBinaryJpeg soup with
  | none => epub_book
  | some tag =>
      let cover_data := pyStrip (getText tag)
      match b64decode cover_data with
      | none => epub_book
      | some bytes => { epub_book with cover := some bytes }

/-- Chapter title of a section: `section.find('title').get_text(strip=True)`
when a title tag was found (a found bs4 Tag is always truthy), else
`'Chapter {count}'`. -/
def sectionTitleOf (count : Nat) (sec : Node) : String :=
  match findTag "title" sec with
  | some t => getTextS t
  | none => "Chapter " ++ toString count

/-- The chapter item built for the `count`-th section (`count` starts at 1). -/
def chapterOf (count : Nat) (sec : Node) : EpubHtml :=
  let t := sectionTitleOf count sec
  { title := t
    file_name := "chapter_" ++ toString count ++ ".xhtml"
    content := "<h1>" ++ t ++ "</h1>" ++ process_section_elements sec }

/-- The TOC link built for the `count`-th section:
`epub.Link(chapter_file_name, section_title, 'chapter_{count}')`. -/
def linkOf (count : Nat) (sec : Node) : EpubLink :=
  { href := "chapter_" ++ toString count ++ ".xhtml"
    title := sectionTitleOf count sec
    uid := "chapter_" ++ toString count }

/-- The sections the chapter loop visits:
`for body in soup.find_all('body'): for section in body.find_all('section')`.
`find_all` is recursive, so nested sub-sections are visited too, in document
order. -/
def docSections (soup : Node) : List Node :=
  ((findAllTag "body" soup).map (findAllTag "section")).flatten

/-- Chapters for a list of sections, numbering from `k`: the loop counter
`chapter_count` of `create_epub_chapters`. -/
def chaptersFrom : Nat → List Node → List EpubHtml
  | _, [] => []
  | k, sec :: rest => chapterOf k sec :: chaptersFrom (k + 1) rest

/-- TOC links for a list of sections, numbering from `k`. -/
def linksFrom : Nat → List Node → List EpubLink
  | _, [] => []
  | k, sec :: rest => linkOf k sec :: linksFrom (k + 1) rest

/-- Embedding of `create_epub_chapters`: appends one chapter item per visited
section, replaces the spine by `['nav'] + chapters`, and returns the TOC
links. -/
def create_epub_chapters (soup : Node) (epub_book : EpubBook) : EpubBook × List EpubLink :=
  let secs := docSections soup
  let chapters := chaptersFrom 1 secs
  ({ epub_book with
      items := epub_book.items ++ chapters
      spine := SpineItem.nav :: chapters.map SpineItem.item },
   linksFrom 1 secs)

/-- The annotation chapter built by `add_annotation_to_book`:
`EpubHtml(title='Annotation', file_name='annotation.xhtml', content='<h1>Annotation</h1>' + processed)`. -/
def annotChapterOf (ann : Node) : EpubHtml :=
  { title := "Annotation"
    file_name := "annotation.xhtml"
    content := "<h1>Annotation</h1>" ++ process_section_elements ann }

/-- Embedding of `add_annotation_to_book`: when an annotation tag was found
(`if annotation_content:` — a bs4 Tag is always truthy, `None` is falsy, so
this is an is-not-None test), builds the annotation chapter, appends it to the
items, inserts it at spine position 0 and returns it. -/
def add_annotation_to_book (book : EpubBook) (annotation_content : Option Node) :
    EpubBook × Option EpubHtml :=
  match annotation_content with
  | none => (book, none)
  | some ann =>
      let ch := annotChapterOf ann
      ({ book with items := book.items ++ [ch], spine := SpineItem.item ch :: book.spine },
       some ch)

/-- Embedding of `convert_fb2_to_epub` on the parsed tree; the freshly
generated `uuid4` identifier is a parameter.  Note the two spine insertions of
the annotation chapter: one inside `add_annotation_to_book` and one in this
function.  `write_epub` (pure serialization) is not modelled. -/
def convert_fb2_to_epub (soup : Node) (ident : String) : EpubBook :=
  let md := extract_metadata soup
  let book0 : EpubBook :=
    { identifier := ident, title := md.1, language := "en", authors := md.2.1
      cover := none, items := [], spine := [], toc := [] }
  let book1 := extract_cover_image soup book0
  let pr := create_epub_chapters soup book1
  let book2 := { pr.1 with toc := pr.1.toc ++ pr.2 }
  let ar := add_annotation_to_book book2 md.2.2
  match ar.2 with
  | some ch =>
      { ar.1 with
          toc := { href := ch.file_name, title := ch.title, uid := "annotation" } :: ar.1.toc
          spine := SpineItem.item ch :: ar.1.spine }
  | none => ar.1

/-- Whether the conversion adds an annotation chapter: `extract_metadata`
found an `annotation` tag under the first `title-info` (any found tag,
including an empty `<annotation/>`, since a bs4 Tag is always truthy). -/
def hasAnnot (soup : Node) : Bool :=
  (extract_metadata soup).2.2.isSome

/-- The cover the conversion ends up with: the decode of the first JPEG
`binary` node's payload, when both exist. -/
def coverOf (soup : Node) : Option (List Nat) :=
  match findBinaryJpeg soup with
  | none => none
  | some tag => b64decode (pyStrip (getText tag))

/-- Result of a Python call: a normal return value, or an uncaught exception
escaping to the caller (named by its class). -/
inductive PyResult (α : Type) where
  | ok : α → PyResult α
  | exn : String → PyResult α
deriving DecidableEq

/-- Model of `os.path.basename`: the part after the last `/`. -/
def basenameOf (p : String) : String :=
  String.mk ((p.toList.reverse.takeWhile (fun c => c ≠ '/')).reverse)

/-- Stem part of `os.path.splitext` on a bare file name (as a character
list): cut at the last dot unless every character before it is a dot. -/
def stemOfL (cs : List Char) : List Char :=
  match cs.reverse.findIdx? (fun c => c = '.') with
  | none => cs
  | some j =>
      let i := cs.length - 1 - j
      if (cs.take i).all (fun c => c = '.') then cs else cs.take i

/-- Stem part of `os.path.splitext` on a bare file name. -/
def stemOf (name : String) : String :=
  String.mk (stemOfL name.toList)

/-- Model of `os.path.splitext(p)[0]` on a path: the stem rule applies to the
part after the last `/`. -/
def splitextStem (p : String) : String :=
  let cs := p.toList
  let base := (cs.reverse.takeWhile (fun c => c ≠ '/')).reverse
  String.mk (cs.take (cs.length - base.length) ++ stemOfL base)

/-- Environment of one `convert_file` call: whether the input path exists,
whether reading it succeeds, and whether `convert_fb2_to_epub` (including
`write_epub`) runs without raising. -/
structure FileEnv where
  fileExistsFlag : Bool
  readOk : Bool
  convOk : Bool
deriving DecidableEq

/-- Embedding of `convert_file`.  The whole body is inside
`try ... except Exception: log`, and the function ends with
`return output_path`.  When the input is missing or unreadable the exception
is caught and logged, but `output_path` was never assigned, so the `return`
itself raises `UnboundLocalError`.  When `convert_fb2_to_epub` raises, the
exception is caught and logged and `output_path` is returned exactly as in
the success case. -/
def convert_file (env : FileEnv) (fb2_path : String) : PyResult String :=
  if !env.fileExistsFlag || !env.readOk then PyResult.exn "UnboundLocalError"
  else
    let base_name := stemOf (basenameOf fb2_path)
    let output_path := base_name ++ ".epub"
    if env.convOk then PyResult.ok output_path else PyResult.ok output_path

/-- Environment of one `convert_archive` call: whether the archive path
exists, whether it opens as a ZIP, and the entry list (name, and whether
reading plus converting that entry succeeds). -/
structure ZipEnv where
  zipExistsFlag : Bool
  zipReadable : Bool
  entries : List (String × Bool)
deriving DecidableEq

/-- The per-entry loop of `convert_archive`.  There is no per-entry `try`:
the first failing entry raises out of the loop into the single outer
`except`, so later entries are never processed and the list accumulated so
far is returned. -/
def archiveLoop : List (String × Bool) → List String → List String
  | [], acc => acc
  | (nm, ok) :: rest, acc =>
      if ok then archiveLoop rest (acc ++ [splitextStem nm ++ ".epub"])
      else acc

/-- Embedding of `convert_archive`.  Every failure (missing path, not a ZIP,
no `.fb2` entries, an entry raising) reaches the single
`except Exception: log`, after which the accumulated `epub_files` list is
returned; no exception escapes. -/
def convert_archive (env : ZipEnv) (_zip_path : String) : PyResult (List String) :=
  if !env.zipExistsFlag then PyResult.ok []
  else if !env.zipReadable then PyResult.ok []
  else
    let fb2_files := env.entries.filter (fun e => pyEndsWith e.1 ".fb2")
    if fb2_files.isEmpty then PyResult.ok []
    else PyResult.ok (archiveLoop fb2_files [])

/-- The §8 example document: `title-info` with book-title "Test" and one
author (first "Ann", last "Lee"), one body with one section titled "Intro"
containing one paragraph "Hello". -/
def exDoc : Node :=
  Node.elem "FictionBook" []
    [Node.elem "description" []
      [Node.elem "title-info" []
        [Node.elem "book-title" [] [Node.text "Test"],
         Node.elem "author" []
           [Node.elem "first-name" [] [Node.text "Ann"],
            Node.elem "last-name" [] [Node.text "Lee"]]]],
     Node.elem "body" []
      [Node.elem "section" []
        [Node.elem "title" [] [Node.elem "p" [] [Node.text "Intro"]],
         Node.elem "p" [] [Node.text "Hello"]]]]

/-- Document with a nonempty annotation and one section: exercises the
annotation spine/TOC insertion. -/
def soupC2 : Node :=
  Node.elem "FictionBook" []
    [Node.elem "description" []
      [Node.elem "title-info" []
        [Node.elem "annotation" [] [Node.elem "p" [] [Node.text "Anno"]]]],
     Node.elem "body" []
      [Node.elem "section" []
        [Node.elem "title" [] [Node.elem "p" [] [Node.text "One"]],
         Node.elem "p" [] [Node.text "Hi"]]]]

/-- The annotation chapter built for `soupC2`. -/
def annotChC2 : EpubHtml :=
  { title := "Annotation"
    file_name := "annotation.xhtml"
    content := "<h1>Annotation</h1><p style=\"text-indent: 1em;\">Anno</p>" }

/-- The single section chapter built for `soupC2`. -/
def chC2 : EpubHtml :=
  { title := "One"
    file_name := "chapter_1.xhtml"
    content := "<h1>One</h1><p style=\"text-indent: 1em;\">Hi</p>" }

/-- Document whose `title-info` carries `lang` "ru": exercises the dropped
language metadata. -/
def soupC4 : Node :=
  Node.elem "FictionBook" []
    [Node.elem "description" []
      [Node.elem "title-info" []
        [Node.elem "book-title" [] [Node.text "T"],
         Node.elem "lang" [] [Node.text "ru"]]]]

/-- A nested sub-section titled "In" with one paragraph "y". -/
def innC6 : Node :=
  Node.elem "section" []
    [Node.elem "title" [] [Node.elem "p" [] [Node.text "In"]],
     Node.elem "p" [] [Node.text "y"]]

/-- An outer section titled "Out" with one paragraph "x" and the nested
sub-section `innC6`. -/
def outC6 : Node :=
  Node.elem "section" []
    [Node.elem "title" [] [Node.elem "p" [] [Node.text "Out"]],
     Node.elem "p" [] [Node.text "x"],
     innC6]

/-- The body holding `outC6`. -/
def bodyC6 : Node :=
  Node.elem "body" [] [outC6]

/-- Document with one body holding an outer section that contains a nested
sub-section: exercises recursive section traversal. -/
def soupC6 : Node :=
  Node.elem "FictionBook" [] [bodyC6]

/-- On a book with no cover yet, `extract_cover_image` installs exactly
`coverOf soup`. -/
theorem extract_cover_image_eq (soup : Node) (book : EpubBook) (h : book.cover = none) :
    extract_cover_image soup book = { book with cover := coverOf soup } := by
  unfold extract_cover_image coverOf
  cases findBinaryJpeg soup with
  | none =>
      cases book
      simp at h
      simp [h]
  | some tag =>
      dsimp only
      cases b64decode (pyStrip (getText tag)) with
      | none =>
          cases book
          simp at h
          simp [h]
      | some bytes => rfl

/-- Characterization of `convert_fb2_to_epub`: the final book, with and
without an annotation.  Note the annotation chapter occurring twice in the
spine. -/
theorem convert_eq (soup : Node) (ident : String) :
    convert_fb2_to_epub soup ident =
      match (extract_metadata soup).2.2 with
      | none =>
          { identifier := ident, title := (extract_metadata soup).1, language := "en"
            authors := (extract_metadata soup).2.1, cover := coverOf soup
            items := chaptersFrom 1 (docSections soup)
            spine := SpineItem.nav :: (chaptersFrom 1 (docSections soup)).map SpineItem.item
            toc := linksFrom 1 (docSections soup) }
      | some ann =>
          { identifier := ident, title := (extract_metadata soup).1, language := "en"
            authors := (extract_metadata soup).2.1, cover := coverOf soup
            items := chaptersFrom 1 (docSections soup) ++ [annotChapterOf ann]
            spine := SpineItem.item (annotChapterOf ann) :: SpineItem.item (annotChapterOf ann)
                       :: SpineItem.nav :: (chaptersFrom 1 (docSections soup)).map SpineItem.item
            toc := { href := "annotation.xhtml", title := "Annotation", uid := "annotation" }
                     :: linksFrom 1 (docSections soup) } := by
  cases hann : (extract_metadata soup).2.2 with
  | none =>
      simp [convert_fb2_to_epub, create_epub_chapters, add_annotation_to_book, hann,
        extract_cover_image_eq]
  | some ann =>
      simp [convert_fb2_to_epub, create_epub_chapters, add_annotation_to_book, hann,
        extract_cover_image_eq, annotChapterOf]

/-- `chaptersFrom` produces one chapter per section. -/
theorem chaptersFrom_length (k : Nat) (l : List Node) :
    (chaptersFrom k l).length = l.length := by
  induction l generalizing k with
  | nil => rfl
  | cons s rest ih => simp [chaptersFrom, ih]

/-- `linksFrom` produces one TOC link per section. -/
theorem linksFrom_length (k : Nat) (l : List Node) :
    (linksFrom k l).length = l.length := by
  induction l generalizing k with
  | nil => rfl
  | cons s rest ih => simp [linksFrom, ih]

/-- The TOC links point at the chapter files, in the same order. -/
theorem linksFrom_href (k : Nat) (l : List Node) :
    (linksFrom k l).map EpubLink.href = (chaptersFrom k l).map EpubHtml.file_name := by
  induction l generalizing k with
  | nil => rfl
  | cons s rest ih => simp [linksFrom, chaptersFrom, linkOf, chapterOf, ih]

/-- The chapter file names are `chapter_k.xhtml, chapter_{k+1}.xhtml, …`, in
section order. -/
theorem chaptersFrom_files (k : Nat) (l : List Node) :
    (chaptersFrom k l).map EpubHtml.file_name
      = (List.range l.length).map (fun i => "chapter_" ++ toString (k + i) ++ ".xhtml") := by
  induction l generalizing k with
  | nil => rfl
  | cons s rest ih =>
      simp only [chaptersFrom, List.map_cons, List.length_cons, List.range_succ_eq_map,
        List.map_map, ih (k + 1), List.cons.injEq]
      refine ⟨by simp [chapterOf], ?_⟩
      apply List.map_congr_left
      intro i _
      have he : k + 1 + i = k + (i + 1) := by omega
      simp [Function.comp, Nat.succ_eq_add_one, he]

mutual

/-- Descendant search is transitive: a descendant of a descendant of `n` is a
descendant of `n`. -/
theorem descE_trans : ∀ (n a : Node), a ∈ descE n → ∀ x, x ∈ descE a → x ∈ descE n
  | Node.text _, _, h, _, _ => by simp [descE] at h
  | Node.elem _ _ cs, a, h, x, hx => by
      simp only [descE] at h ⊢
      exact descEL_trans cs a h x hx

theorem descEL_trans :
    ∀ (l : List Node) (a : Node), a ∈ descEL l → ∀ x, x ∈ descE a → x ∈ descEL l
  | [], _, h, _, _ => by simp [descEL] at h
  | c :: cs, a, h, x, hx => by
      simp only [descEL, List.mem_append] at h ⊢
      rcases h with (h | h) | h
      · cases c with
        | text s => simp at h
        | elem tc ac cc =>
            simp at h
            subst h
            exact Or.inl (Or.inr hx)
      · exact Or.inl (Or.inr (descE_trans c a h x hx))
      · exact Or.inr (descEL_trans cs a h x hx)

end

/-- The entry loop of `convert_archive` outputs exactly the entries before the
first failure, appended to the accumulator. -/
theorem archiveLoop_eq (l : List (String × Bool)) (acc : List String) :
    archiveLoop l acc
      = acc ++ (l.takeWhile (fun e => e.2)).map (fun e => splitextStem e.1 ++ ".epub") := by
  induction l generalizing acc with
  | nil => simp [archiveLoop]
  | cons e rest ih =>
      cases e with
      | mk nm ok =>
          cases ok with
          | false => simp [archiveLoop, List.takeWhile_cons]
          | true => simp [archiveLoop, List.takeWhile_cons, ih]

/-- The produced package always holds one chapter item per walked section,
plus the annotation chapter when one is present. -/
theorem conv_items_length (soup : Node) (ident : String) :
    (convert_fb2_to_epub soup ident).items.length
      = (docSections soup).length + (if hasAnnot soup then 1 else 0) := by
  cases hann : (extract_metadata soup).2.2 with
  | none =>
      have hA : hasAnnot soup = false := by simp [hasAnnot, hann]
      rw [convert_eq]
      simp [hann, hA, chaptersFrom_length]
  | some ann =>
      have hA : hasAnnot soup = true := by simp [hasAnnot, hann]
      rw [convert_eq]
      simp [hann, hA, chaptersFrom_length]

/-- The produced package's cover is exactly the decode of the first JPEG
`binary` payload (none when absent or undecodable). -/
theorem conv_cover (soup : Node) (ident : String) :
    (convert_fb2_to_epub soup ident).cover = coverOf soup := by
  cases hann : (extract_metadata soup).2.2 with
  | none => rw [convert_eq]; simp [hann]
  | some ann => rw [convert_eq]; simp [hann]

/-- Characterization of `convert_archive`: it always returns normally, with
the outputs of the eligible entries before the first failure. -/
theorem convert_archive_eq (env : ZipEnv) (zip_path : String) :
    convert_archive env zip_path
      = PyResult.ok
          (if env.zipExistsFlag && env.zipReadable then
             ((env.entries.filter (fun e => pyEndsWith e.1 ".fb2")).takeWhile
                 (fun e => e.2)).map (fun e => splitextStem e.1 ++ ".epub")
           else []) := by
  unfold convert_archive
  cases hE : env.zipExistsFlag with
  | false => simp [hE]
  | true =>
      cases hR : env.zipReadable with
      | false => simp [hE, hR]
      | true =>
          simp only [hE, hR, Bool.not_true, Bool.false_eq_true, if_false, Bool.and_self,
            if_true]
          by_cases hemp : (env.entries.filter (fun e => pyEndsWith e.1 ".fb2")).isEmpty
          · have h0 : env.entries.filter (fun e => pyEndsWith e.1 ".fb2") = [] :=
              List.isEmpty_iff.mp hemp
            simp [hemp, h0]
          · simp [hemp, archiveLoop_eq]

/-- The first N items of the produced package are exactly the chapters built
from the walked sections, in order. -/
theorem conv_items_take (soup : Node) (ident : String) :
    (convert_fb2_to_epub soup ident).items.take (docSections soup).length
      = chaptersFrom 1 (docSections soup) := by
  cases hann : (extract_metadata soup).2.2 with
  | none =>
      rw [convert_eq]
      simp only [hann]
      rw [← chaptersFrom_length 1 (docSections soup), List.take_length]
  | some ann =>
      rw [convert_eq]
      simp only [hann]
      rw [← chaptersFrom_length 1 (docSections soup), List.take_left]

mutual

/-- Pre-order decomposition: around any descendant `a`, the descendant list
of `n` splits as a prefix, then `a` immediately followed by all of `a`'s own
descendants, then a suffix. -/
theorem descE_decomp : ∀ (n a : Node), a ∈ descE n →
    ∃ l1 l2, descE n = l1 ++ a :: (descE a ++ l2)
  | Node.text _, _, h => by simp [descE] at h
  | Node.elem _ _ cs, a, h => by
      simp only [descE] at h ⊢
      exact descEL_decomp cs a h

theorem descEL_decomp : ∀ (l : List Node) (a : Node), a ∈ descEL l →
    ∃ l1 l2, descEL l = l1 ++ a :: (descE a ++ l2)
  | [], _, h => by simp [descEL] at h
  | c :: cs, a, h => by
      simp only [descEL, List.mem_append] at h
      rcases h with (h | h) | h
      · cases c with
        | text s => simp at h
        | elem tc ac cc =>
            simp at h
            subst h
            exact ⟨[], descEL cs, by simp [descEL]⟩
      · cases c with
        | text s => simp [descE] at h
        | elem tc ac cc =>
            obtain ⟨p, q, hp⟩ := descE_decomp (Node.elem tc ac cc) a h
            refine ⟨Node.elem tc ac cc :: p, q ++ descEL cs, ?_⟩
            simp [descEL, hp]
      · obtain ⟨p, q, hp⟩ := descEL_decomp cs a h
        cases c with
        | text s =>
            refine ⟨p, q, ?_⟩
            simp [descEL, descE, hp]
        | elem tc ac cc =>
            refine ⟨Node.elem tc ac cc :: (descE (Node.elem tc ac cc) ++ p), q, ?_⟩
            simp [descEL, hp]

end

mutual

/-- Pre-order decomposition of the flagged traversal: around any flagged
descendant `(d, f)`, the traversal of `n` splits as a prefix, then `(d, f)`
immediately followed by `d`'s own flagged traversal (whose children flag is
`f`, or true when `d` is itself a title), then a suffix. -/
theorem descA_decomp : ∀ (fl : Bool) (n d : Node) (f : Bool), (d, f) ∈ descA fl n →
    ∃ l1 l2, descA fl n = l1 ++ (d, f) :: (descA (f || (tagOf d == "title")) d ++ l2)
  | _, Node.text _, _, _, h => by simp [descA] at h
  | fl, Node.elem _ _ cs, d, f, h => by
      simp only [descA] at h ⊢
      exact descAL_decomp fl cs d f h

theorem descAL_decomp : ∀ (fl : Bool) (l : List Node) (d : Node) (f : Bool),
    (d, f) ∈ descAL fl l →
    ∃ l1 l2, descAL fl l = l1 ++ (d, f) :: (descA (f || (tagOf d == "title")) d ++ l2)
  | _, [], _, _, h => by simp [descAL] at h
  | fl, c :: cs, d, f, h => by
      simp only [descAL, List.mem_append] at h
      rcases h with (h | h) | h
      · cases c with
        | text s => simp at h
        | elem tc ac cc =>
            simp at h
            obtain ⟨hd, hf⟩ := h
            subst hd
            subst hf
            exact ⟨[], descAL f cs, by simp [descAL]⟩
      · cases c with
        | text s => simp [descA] at h
        | elem tc ac cc =>
            obtain ⟨p, q, hp⟩ :=
              descA_decomp (fl || (tagOf (Node.elem tc ac cc) == "title"))
                (Node.elem tc ac cc) d f h
            refine ⟨(Node.elem tc ac cc, fl) :: p, q ++ descAL fl cs, ?_⟩
            simp [descAL, hp]
      · obtain ⟨p, q, hp⟩ := descAL_decomp fl cs d f h
        cases c with
        | text s =>
            refine ⟨p, q, ?_⟩
            simp [descAL, descA, hp]
        | elem tc ac cc =>
            refine ⟨(Node.elem tc ac cc, fl)
                :: (descA (fl || (tagOf (Node.elem tc ac cc) == "title"))
                      (Node.elem tc ac cc) ++ p), q, ?_⟩
            simp [descAL, hp]

end

/-- Folding string concatenation from `init` is `init` ++ the fold from
the empty string. -/
theorem str_foldl_shift (l : List String) :
    ∀ init : String,
      l.foldl (fun a b => a ++ b) init = init ++ l.foldl (fun a b => a ++ b) "" := by
  induction l with
  | nil => intro init; simp [String.append_empty]
  | cons x xs ih =>
      intro init
      simp only [List.foldl_cons]
      rw [ih (init ++ x), ih ("" ++ x), String.empty_append, String.append_assoc]

/-- Folding string concatenation distributes over list append. -/
theorem str_foldl_append (l1 l2 : List String) :
    (l1 ++ l2).foldl (fun a b => a ++ b) ""
      = l1.foldl (fun a b => a ++ b) "" ++ l2.foldl (fun a b => a ++ b) "" := by
  rw [List.foldl_append, str_foldl_shift]

/-- For a nested section `t` with a title on no strict path from `s`
(flag false in the walk of `s`), the rendered content of `s` contains the
rendered content of `t` as a contiguous substring. -/
theorem pse_contains_nested (s t : Node)
    (htf : (t, false) ∈ descA false s) (hts : tagOf t = "section") :
    ∃ x y, process_section_elements s = x ++ process_section_elements t ++ y := by
  obtain ⟨l1, l2, hdec⟩ := descA_decomp false s t false htf
  rw [hts] at hdec
  simp only [show (("section" : String) == "title") = false from rfl, Bool.or_false] at hdec
  unfold process_section_elements
  rw [hdec]
  have hqt : (tagOf t == "p" || tagOf t == "a" || tagOf t == "subtitle") = false := by
    simp [hts]
  refine ⟨((l1.filter (fun e => tagOf e.1 == "p" || tagOf e.1 == "a"
              || tagOf e.1 == "subtitle")).map render_element).foldl
            (fun acc s => acc ++ s) "",
          ((l2.filter (fun e => tagOf e.1 == "p" || tagOf e.1 == "a"
              || tagOf e.1 == "subtitle")).map render_element).foldl
            (fun acc s => acc ++ s) "", ?_⟩
  rw [List.filter_append, List.filter_cons]
  simp only [hqt, Bool.false_eq_true, if_false]
  rw [List.filter_append, List.map_append, List.map_append, str_foldl_append,
    str_foldl_append]
  simp only [String.append_assoc]

/-- Any paragraph carrying the title-ancestor flag renders as nothing:
nested titles are not rendered as content. -/
theorem render_p_in_title (n : Node) (hn : tagOf n = "p") :
    render_element (n, true) = "" := by
  simp [render_element, hn]

/-- A section nested inside a walked section is itself walked, after its
enclosing section: the walked-section list splits as a prefix, then `s`,
then later `t`. -/
theorem docSections_order (soup b s t : Node)
    (hb : b ∈ findAllTag "body" soup) (hs : s ∈ findAllTag "section" b)
    (ht : t ∈ findAllTag "section" s) :
    ∃ u1 u2 u3, docSections soup = u1 ++ s :: (u2 ++ t :: u3) := by
  have hs2 : s ∈ descE b ∧ (tagOf s == "section") = true := by
    simpa [findAllTag, List.mem_filter] using hs
  obtain ⟨l1, l2, hdec⟩ := descE_decomp b s hs2.1
  have ht2 : t ∈ (descE s).filter (fun d => tagOf d == "section") := by
    simpa [findAllTag] using ht
  obtain ⟨m1, m2, hm⟩ := List.append_of_mem ht2
  obtain ⟨b1, b2, hbsplit⟩ := List.append_of_mem hb
  refine ⟨(b1.map (findAllTag "section")).flatten
            ++ l1.filter (fun d => tagOf d == "section"),
          m1,
          m2 ++ l2.filter (fun d => tagOf d == "section")
            ++ (b2.map (findAllTag "section")).flatten, ?_⟩
  unfold docSections
  rw [hbsplit]
  simp only [List.map_append, List.map_cons, List.flatten_append, List.flatten_cons]
  rw [show findAllTag "section" b = (descE b).filter (fun d => tagOf d == "section") from rfl,
    hdec]
  rw [List.filter_append, List.filter_cons]
  simp only [hs2.2, if_true]
  rw [List.filter_append, hm]
  simp [List.append_assoc]

/-- Archive environment with a failing middle entry. -/
def envC3 : ZipEnv :=
  { zipExistsFlag := true
    zipReadable := true
    entries := [("a.fb2", true), ("b.fb2", false), ("c.fb2", true)] }

/-- Document with a JPEG `binary` node carrying a valid base64 payload
(`"aGVsbG8="`, the bytes of `hello`) and one section. -/
def soupC8good : Node :=
  Node.elem "FictionBook" []
    [Node.elem "binary" [("content-type", "image/jpeg"), ("id", "cover.jpg")]
       [Node.text "aGVsbG8="],
     Node.elem "body" []
       [Node.elem "section" [] [Node.elem "p" [] [Node.text "z"]]]]

/-- Same document with a corrupt base64 payload (`"a"`: length 1 is an
invalid base64 length, Python raises `binascii.Error`). -/
def soupC8bad : Node :=
  Node.elem "FictionBook" []
    [Node.elem "binary" [("content-type", "image/jpeg"), ("id", "cover.jpg")]
       [Node.text "a"],
     Node.elem "body" []
       [Node.elem "section" [] [Node.elem "p" [] [Node.text "z"]]]]

/-- C1: on every input the conversion produces exactly one chapter item per
walked section, with file names `chapter_1.xhtml` … `chapter_N.xhtml`
assigned sequentially in source document order (the chapter counter runs over
all bodies without resetting), and a TOC with N entries (N+1 when an
annotation is present) whose chapter part points at the chapter files in the
same order. -/
theorem C1_chapter_ordinals_and_toc (soup : Node) (ident : String) :
    ((convert_fb2_to_epub soup ident).items.take (docSections soup).length).map
        EpubHtml.file_name
      = (List.range (docSections soup).length).map
          (fun i => "chapter_" ++ toString (i + 1) ++ ".xhtml")
    ∧ (convert_fb2_to_epub soup ident).items.length
        = (docSections soup).length + (if hasAnnot soup then 1 else 0)
    ∧ (convert_fb2_to_epub soup ident).toc.length
        = (docSections soup).length + (if hasAnnot soup then 1 else 0)
    ∧ ((convert_fb2_to_epub soup ident).toc.drop (if hasAnnot soup then 1 else 0)).map
          EpubLink.href
      = ((convert_fb2_to_epub soup ident).items.take (docSections soup).length).map
          EpubHtml.file_name := by
  have hlen := conv_items_length soup ident
  have htake := conv_items_take soup ident
  have hfiles : (chaptersFrom 1 (docSections soup)).map EpubHtml.file_name
      = (List.range (docSections soup).length).map
          (fun i => "chapter_" ++ toString (i + 1) ++ ".xhtml") := by
    rw [chaptersFrom_files]
    apply List.map_congr_left
    intro i _
    rw [Nat.add_comm]
  refine ⟨by rw [htake]; exact hfiles, hlen, ?_, ?_⟩
  · cases hann : (extract_metadata soup).2.2 with
    | none =>
        have hA : hasAnnot soup = false := by simp [hasAnnot, hann]
        rw [convert_eq]
        simp [hann, hA, linksFrom_length]
    | some ann =>
        have hA : hasAnnot soup = true := by simp [hasAnnot, hann]
        rw [convert_eq]
        simp [hann, hA, linksFrom_length]
  · rw [htake]
    cases hann : (extract_metadata soup).2.2 with
    | none =>
        have hA : hasAnnot soup = false := by simp [hasAnnot, hann]
        rw [convert_eq]
        simp only [hann, hA, Bool.false_eq_true, if_false, List.drop_zero]
        exact linksFrom_href 1 (docSections soup)
    | some ann =>
        have hA : hasAnnot soup = true := by simp [hasAnnot, hann]
        rw [convert_eq]
        simp only [hann, hA, if_true, List.drop_succ_cons, List.drop_zero]
        exact linksFrom_href 1 (docSections soup)

/-- C2 (falsified as stated, exposing the defect): on an input with an
annotation, the final spine lists the annotation chapter TWICE — it is
inserted at position 0 once inside `add_annotation_to_book` and once more in
`convert_fb2_to_epub` — followed by `nav` and the chapters; the TOC link for
the annotation is at TOC position 0 (once). -/
theorem C2_annotation_spine_duplicated :
    (convert_fb2_to_epub soupC2 "uid2").spine
        = [SpineItem.item annotChC2, SpineItem.item annotChC2, SpineItem.nav,
           SpineItem.item chC2]
    ∧ (convert_fb2_to_epub soupC2 "uid2").spine.count (SpineItem.item annotChC2) = 2
    ∧ (convert_fb2_to_epub soupC2 "uid2").toc.map EpubLink.href
        = ["annotation.xhtml", "chapter_1.xhtml"] :=
  ⟨rfl, by decide, rfl⟩

/-- C3 counterexample: on an archive whose middle entry fails, the sibling
entry `c.fb2` after the failure is NOT processed — the result is only
`["a.epub"]`, not the outputs of all succeeding entries
`["a.epub", "c.epub"]`. -/
theorem C3_counterexample :
    convert_archive envC3 "books.zip" = PyResult.ok ["a.epub"]
    ∧ convert_archive envC3 "books.zip" ≠ PyResult.ok ["a.epub", "c.epub"] :=
  ⟨rfl, by decide⟩

/-- C3 amended: when an entry fails, `convert_archive` stops — entries after
the first failing eligible entry are never processed, and the returned list
holds exactly the output paths of the eligible entries before the first
failure, in archive listing order (and `[]` when the archive is missing or
unreadable). -/
theorem C3_amended_stops_at_first_failure (env : ZipEnv) (zip_path : String) :
    convert_archive env zip_path
      = PyResult.ok
          (if env.zipExistsFlag && env.zipReadable then
             ((env.entries.filter (fun e => pyEndsWith e.1 ".fb2")).takeWhile
                 (fun e => e.2)).map (fun e => splitextStem e.1 ++ ".epub")
           else []) :=
  convert_archive_eq env zip_path

/-- C4 (falsified as stated, exposing the defect): the source document's
`lang` is "ru", but the produced package's language is the hard-coded "en"
(`extract_metadata` computes the language and never returns it;
`convert_fb2_to_epub` calls `book.set_language('en')`).  Title still
round-trips. -/
theorem C4_language_not_roundtripped :
    (findTag "lang" soupC4).map getText = some "ru"
    ∧ (convert_fb2_to_epub soupC4 "uid4").language = "en"
    ∧ (convert_fb2_to_epub soupC4 "uid4").title = "T"
    ∧ ("en" : String) ≠ "ru" :=
  ⟨rfl, rfl, rfl, by decide⟩

/-- C5 (falsified as stated, exposing the defect): when the input file exists
and is readable but the conversion/write raises, `convert_file` catches the
exception, logs it and still returns the output path as if it had succeeded;
and when the input is missing, the `return output_path` after the `except`
block raises `UnboundLocalError` instead of reporting a conversion error. -/
theorem C5_failure_swallowed :
    convert_file { fileExistsFlag := true, readOk := true, convOk := false } "book.fb2"
        = PyResult.ok "book.epub"
    ∧ convert_file { fileExistsFlag := false, readOk := true, convOk := true } "book.fb2"
        = PyResult.exn "UnboundLocalError" :=
  ⟨rfl, rfl⟩

/-- C6 counterexample: with one outer section containing one nested
sub-section, the conversion produces TWO chapters — the nested sub-section
gets a chapter of its own (`chapter_2.xhtml`), while its paragraph "y" also
appears flattened inside the outer section's chapter. -/
theorem C6_counterexample :
    (convert_fb2_to_epub soupC6 "uid6").items.map EpubHtml.file_name
        = ["chapter_1.xhtml", "chapter_2.xhtml"]
    ∧ (convert_fb2_to_epub soupC6 "uid6").items.map EpubHtml.content
        = ["<h1>Out</h1><p style=\"text-indent: 1em;\">x</p><p style=\"text-indent: 1em;\">y</p>",
           "<h1>In</h1><p style=\"text-indent: 1em;\">y</p>"] :=
  ⟨rfl, rfl⟩

/-- C6 amended: `find_all('section')` is recursive, so chapter assembly walks
every descendant section of each body.  For a section `t` nested inside a
walked section `s` of body `b`: (1) `t` is itself a walked section, appearing
in the walked-section list after `s`; (2) each walked section yields exactly
its own chapter, in that order (the first N items are the chapters of the N
walked sections, and the item count is N plus the annotation chapter when
present), so the nested sub-section gets a separate chapter of its own after
its enclosing section's; (3) when no title element lies strictly between `s`
and `t` (the `find_parent('title')` flag of `t` within `s` is false), the
rendered content of `t` additionally appears, duplicated, as a contiguous
part of the rendered content of `s`; and (4) paragraphs carrying the
title-ancestor flag — in particular those of a nested sub-section's title —
render as nothing, in the outer and in the nested chapter alike. -/
theorem C6_amended_nested_sections_walked (soup : Node) (ident : String) (b s t : Node)
    (hb : b ∈ findAllTag "body" soup) (hs : s ∈ findAllTag "section" b)
    (ht : t ∈ findAllTag "section" s) :
    (∃ u1 u2 u3, docSections soup = u1 ++ s :: (u2 ++ t :: u3))
    ∧ (convert_fb2_to_epub soup ident).items.take (docSections soup).length
        = chaptersFrom 1 (docSections soup)
    ∧ (convert_fb2_to_epub soup ident).items.length
        = (docSections soup).length + (if hasAnnot soup then 1 else 0)
    ∧ ((t, false) ∈ descA false s →
        ∃ x y, process_section_elements s = x ++ process_section_elements t ++ y)
    ∧ (∀ n : Node, tagOf n = "p" → render_element (n, true) = "") := by
  have hts : tagOf t = "section" := by
    have h2 : t ∈ descE s ∧ tagOf t = "section" := by simpa [findAllTag] using ht
    exact h2.2
  exact ⟨docSections_order soup b s t hb hs ht,
         conv_items_take soup ident,
         conv_items_length soup ident,
         fun htf => pse_contains_nested s t htf hts,
         fun n hn => render_p_in_title n hn⟩

/-- Witness for the amended C6 on the concrete nested document `soupC6`,
discharging every hypothesis (including the no-title-between premise of the
duplication part) at `bodyC6` / `outC6` / `innC6`. -/
theorem C6_amended_witness :
    (bodyC6 ∈ findAllTag "body" soupC6
      ∧ outC6 ∈ findAllTag "section" bodyC6
      ∧ innC6 ∈ findAllTag "section" outC6
      ∧ (innC6, false) ∈ descA false outC6)
    ∧ ((∃ u1 u2 u3, docSections soupC6 = u1 ++ outC6 :: (u2 ++ innC6 :: u3))
      ∧ (convert_fb2_to_epub soupC6 "uidw").items.take (docSections soupC6).length
          = chaptersFrom 1 (docSections soupC6)
      ∧ (convert_fb2_to_epub soupC6 "uidw").items.length
          = (docSections soupC6).length + (if hasAnnot soupC6 then 1 else 0)
      ∧ (∃ x y, process_section_elements outC6
          = x ++ process_section_elements innC6 ++ y)) := by
  have h := C6_amended_nested_sections_walked soupC6 "uidw" bodyC6 outC6 innC6
    (by decide) (by decide) (by decide)
  exact ⟨⟨by decide, by decide, by decide, by decide⟩,
         h.1, h.2.1, h.2.2.1, h.2.2.2.1 (by decide)⟩

/-- C7: every paragraph found outside a title subtree renders as the styled
`<p>` wrapper whose inner content is the flattened text in `<i>…</i>` when an
`emphasis` descendant exists, the empty string when (otherwise) a link
descendant exists, and the flattened text unescaped otherwise; and on the §8
example the package has title "Test", author "Ann Lee" and one chapter file
`chapter_1.xhtml` whose content is exactly
`<h1>Intro</h1><p style="text-indent: 1em;">Hello</p>`. -/
theorem C7_paragraph_rendering :
    (∀ (attrs : List (String × String)) (cs : List Node),
      render_element (Node.elem "p" attrs cs, false)
        = "<p style=\"text-indent: 1em;\">"
            ++ (if (findTag "emphasis" (Node.elem "p" attrs cs)).isSome then
                  "<i>" ++ getText (Node.elem "p" attrs cs) ++ "</i>"
                else if (findTag "a" (Node.elem "p" attrs cs)).isSome then ""
                else getText (Node.elem "p" attrs cs))
            ++ "</p>")
    ∧ (convert_fb2_to_epub exDoc "uid7").title = "Test"
    ∧ (convert_fb2_to_epub exDoc "uid7").authors = ["Ann Lee"]
    ∧ (convert_fb2_to_epub exDoc "uid7").items.map EpubHtml.file_name = ["chapter_1.xhtml"]
    ∧ (convert_fb2_to_epub exDoc "uid7").items.map EpubHtml.content
        = ["<h1>Intro</h1><p style=\"text-indent: 1em;\">Hello</p>"] := by
  refine ⟨?_, rfl, rfl, rfl, rfl⟩
  intro attrs cs
  simp [render_element, process_paragraph, tagOf]

/-- C8: the produced package's cover is exactly the decode of the first JPEG
`binary` payload — present when the payload decodes, absent when it does not
— and the rest of the conversion completes identically either way (one item
per section plus annotation); concretely, a valid payload yields the decoded
cover bytes and a corrupt payload yields no cover while the chapter is still
produced. -/
theorem C8_cover_decode_nonfatal (soup : Node) (ident : String) :
    ((convert_fb2_to_epub soup ident).cover = coverOf soup
      ∧ (convert_fb2_to_epub soup ident).items.length
          = (docSections soup).length + (if hasAnnot soup then 1 else 0))
    ∧ (convert_fb2_to_epub soupC8good "uid8").cover = some [104, 101, 108, 108, 111]
    ∧ (convert_fb2_to_epub soupC8bad "uid8").cover = none
    ∧ (convert_fb2_to_epub soupC8bad "uid8").items.map EpubHtml.file_name
        = ["chapter_1.xhtml"] :=
  ⟨⟨conv_cover soup ident, conv_items_length soup ident⟩, rfl, rfl, rfl⟩

/-- C9 (falsified as stated, exposing the defect): `element.get('l:href',
'href')` uses the string `'href'` as the default VALUE, not as a fallback
attribute name — a link carrying only an `href` attribute renders as
`<a href="href">…</a>`, not with that attribute's value.  The namespaced
`l:href` attribute itself is honoured. -/
theorem C9_link_fallback_is_literal :
    render_element (Node.elem "a" [("href", "http://example.com/x")] [Node.text "t"], false)
        = "<a href=\"href\">t</a>"
    ∧ render_element (Node.elem "a" [("href", "http://example.com/x")] [Node.text "t"], false)
        ≠ "<a href=\"http://example.com/x\">t</a>"
    ∧ render_element (Node.elem "a" [("l:href", "#n1")] [Node.text "t"], false)
        = "<a href=\"#n1\">t</a>" :=
  ⟨rfl, by decide, rfl⟩

/-- C10: `convert_archive` always returns normally with a (possibly empty)
list of output paths — missing path, non-ZIP input, zero eligible entries and
failing entries all end in the single `except Exception` handler, so no
exception propagates to the caller. -/
theorem C10_archive_never_raises (env : ZipEnv) (zip_path : String) :
    ∃ out, convert_archive env zip_path = PyResult.ok out :=
  ⟨_, convert_archive_eq env zip_path⟩
